import Mathlib

/-!
# Verification of the Flask-Blog core workflows

A shallow embedding, in Lean 4, of the core logic of the Flask-Blog
repository: content-addressed file storage with deduplication
(`flask_blog/admin/file_uploads.py`), the blog-category reordering view
(`flask_blog/admin/api/views.py`), the file table schema
(`flask_blog/blog/models.py`), and hosted-URL detection for Markdown
cross references (`flask_blog/utils/url.py`, `file_uploads.py`).

Python strings are modelled as Lean `String` (sequences of characters),
byte streams as `List Nat`, database tables as Lean lists of records, and
the media directory on disk as an association list from paths to byte
contents.  External C libraries that the code calls (`hashlib.sha256`,
`magic.from_buffer`) and the randomness of `uuid.uuid4().hex` are passed
in as explicit function/string parameters; everything else is translated
directly from the Python source.
-/

namespace FlaskBlog

/-! ## Python string primitives -/

/-- Python string slicing `s[:k]` for an `int` bound `k`: a nonnegative
bound keeps the first `k` characters (clamped at the length); a negative
bound drops the last `-k` characters (clamped at the empty string). -/
def pySliceTo (s : String) (k : Int) : String :=
  if 0 ≤ k then String.mk (s.data.take k.toNat)
  else String.mk (s.data.take (s.length - min s.length (-k).toNat))

/-- Python `str.lower()` restricted to ASCII case folding (the only case
folding that the database's ILIKE comparison is relied upon for here). -/
def pyLower (s : String) : String :=
  String.mk (s.data.map Char.toLower)

/-- `s.rfind(c)` in Python: the index of the last occurrence of `c` in
`s`, or `-1` when `c` does not occur. Auxiliary recursion. -/
def lastIndexOfAux (cs : List Char) (c : Char) (i : Int) (acc : Int) : Int :=
  match cs with
  | [] => acc
  | x :: rest => lastIndexOfAux rest c (i + 1) (if x = c then i else acc)

/-- `s.rfind(c)` in Python. -/
def lastIndexOf (s : String) (c : Char) : Int :=
  lastIndexOfAux s.data c 0 (-1)

/-- Characters kept by werkzeug's `secure_filename`
(`[A-Za-z0-9_.-]`, the complement of `_filename_ascii_strip_re`). -/
def isAllowedFilenameChar (c : Char) : Bool :=
  c.isAlphanum || c == '_' || c == '.' || c == '-'

/-- Python `str.strip(chars)`: remove leading and trailing characters
satisfying `p`. -/
def stripChars (p : Char → Bool) (s : String) : String :=
  String.mk (((s.data.dropWhile p).reverse.dropWhile p).reverse)

/-- Python `str.split()` (no argument): split on whitespace runs,
discarding empty words. `acc` carries the current word, reversed. -/
def splitWsAux : List Char → List Char → List (List Char)
  | [], acc => if acc.isEmpty then [] else [acc.reverse]
  | c :: rest, acc =>
    if c.isWhitespace then
      if acc.isEmpty then splitWsAux rest [] else acc.reverse :: splitWsAux rest []
    else
      splitWsAux rest (c :: acc)

/-- `sep.join(words)`. -/
def joinChar (sep : Char) : List (List Char) → List Char
  | [] => []
  | [w] => w
  | w :: ws => w ++ sep :: joinChar sep ws

/-- werkzeug's `secure_filename`, translated for ASCII input (the NFKD
normalization step is the identity on ASCII; non-ASCII characters are
dropped by the `.encode("ascii", "ignore")` step). On POSIX `os.sep` is
`'/'` and `os.path.altsep` is `None`, so only `'/'` is replaced by a
space; whitespace-separated words are joined with `'_'`; characters
outside `[A-Za-z0-9_.-]` are removed; and `'.'`/`'_'` are stripped from
both ends. The Windows device-name branch is skipped (`os.name != "nt"`). -/
def secure_filename (s : String) : String :=
  let ascii := s.data.filter (fun c => c.toNat < 128)
  let sepReplaced := ascii.map (fun c => if c = '/' then ' ' else c)
  let joined := joinChar '_' (splitWsAux sepReplaced [])
  let cleaned := joined.filter isAllowedFilenameChar
  stripChars (fun c => c == '.' || c == '_') (String.mk cleaned)

/-- CPython's `posixpath.splitext`: split at the last `'.'` that lies
after the last `'/'`, unless every character of the basename before that
dot is itself a dot (so `".bashrc"` has no extension). Returns
`(p[:dotIndex], p[dotIndex:])`, or `(p, "")` when there is no extension. -/
def splitext (p : String) : String × String :=
  let sepIndex := lastIndexOf p '/'
  let dotIndex := lastIndexOf p '.'
  if dotIndex > sepIndex then
    let start := (sepIndex + 1).toNat
    let stop := dotIndex.toNat
    if ((p.data.drop start).take (stop - start)).any (fun c => c ≠ '.') then
      (pySliceTo p dotIndex, String.mk (p.data.drop stop))
    else
      (p, "")
  else
    (p, "")

/-! ## The `File` model (`flask_blog/blog/models.py`, class `File`)

Columns of the `file` table, as declared in `models.py` lines 107-116.
Timestamps (from `TimestampMixin`) and the automatic `id` primary key are
not relevant to any claim and are omitted from the row representation;
the column list below records the declared constraints. -/

structure File where
  filename : String
  collection : String
  mimetype : String
  content_size : Nat
  content_hash : String
deriving DecidableEq, Repr

/-- `File.MAX_FILENAME_LENGTH = 200` (`models.py` line 110). -/
def File.MAX_FILENAME_LENGTH : Nat := 200

/-- A column declaration as it appears in the SQLAlchemy model:
name, optional string length, `nullable`, `unique`. A column whose
declaration carries no `unique=True` has `unique := false` (SQLAlchemy's
default). -/
structure ColumnSpec where
  name : String
  maxLength : Option Nat
  nullable : Bool
  unique : Bool
deriving DecidableEq, Repr

/-- The columns of the `file` table, transcribed from
`models.py` lines 112-116:
`filename = db.Column(db.String(200), nullable=False, unique=True)`,
`collection = db.Column(db.String(50), nullable=False)`,
`mimetype = db.Column(db.String(50), nullable=False)`,
`content_size = db.Column(db.BigInteger, nullable=False)`,
`content_hash = db.Column(db.String(64), nullable=False)`. -/
def fileTableColumns : List ColumnSpec :=
  [ ⟨"filename", some 200, false, true⟩,
    ⟨"collection", some 50, false, false⟩,
    ⟨"mimetype", some 50, false, false⟩,
    ⟨"content_size", none, false, false⟩,
    ⟨"content_hash", some 64, false, false⟩ ]

/-! ## Filename normalization (`file_uploads.py`, `normalize_filename`)

`normalize_filename` consults the database through `file_exists`; here
the database probe is abstracted into an oracle `ex : String → Bool`
(the candidate collection is fixed over the whole call). The
`uuid.uuid4().hex` fallback for an empty sanitized name is passed in as
`uuidHex`. The function returns the result together with the number of
oracle probes that were made. -/

/-- Errors raised by the file-upload code: `ValueError` (missing
filename / extension), the `RuntimeError` raised after 99 collision
suffixes, and `DBAPIError` from a failing insert. `outOfFuel` is an
artifact of the bounded-recursion encoding of the `while` loop and is
proved unreachable. -/
inductive StoreErr where
  | valueError
  | resourceExhausted
  | dbError
  | outOfFuel
deriving DecidableEq, Repr

/-- The collision candidate built at `file_uploads.py` line 148:
`os.path.extsep.join([f"{name[:max_name_length]}-{suffix}", extension])`. -/
def nfCandidate (name : String) (m : Int) (ext : String) (suffix : Nat) : String :=
  pySliceTo name m ++ "-" ++ toString suffix ++ "." ++ ext

/-- The `while file_exists(...)` loop of `normalize_filename`
(`file_uploads.py` lines 134-148), encoded with a fuel parameter that is
strictly larger than the number of iterations the `suffix > 99` guard
permits. Returns the result and the number of `file_exists` probes. -/
def nfLoop (ex : String → Bool) (ext : String) (name : String) (m : Int)
    (filename : String) (suffix : Nat) (fuel : Nat) :
    Except StoreErr String × Nat :=
  match fuel with
  | 0 => (.error .outOfFuel, 0)
  | fuel + 1 =>
    if ex filename then
      let suffix' := suffix + 1
      if suffix' = 1 then
        let m' := m - 3
        let name' := if (name.length : Int) > m' then pySliceTo name m' else name
        let r := nfLoop ex ext name' m' (nfCandidate name' m' ext suffix') suffix' fuel
        (r.1, r.2 + 1)
      else if suffix' > 99 then
        (.error .resourceExhausted, 1)
      else
        let r := nfLoop ex ext name m (nfCandidate name m ext suffix') suffix' fuel
        (r.1, r.2 + 1)
    else
      (.ok filename, 1)

/-- `normalize_filename` (`file_uploads.py` lines 106-150). -/
def normalize_filename (ex : String → Bool) (uuidHex : String)
    (filename : String) : Except StoreErr String × Nat :=
  let p := splitext filename
  if p.2 = "" then
    (.error .valueError, 0)
  else
    let name1 := if secure_filename p.1 = "" then uuidHex else secure_filename p.1
    let ext := if secure_filename p.2 = "" then "txt" else secure_filename p.2
    let m : Int := (File.MAX_FILENAME_LENGTH : Int) - (1 + (ext.length : Int))
    let name2 := if (name1.length : Int) > m then pySliceTo name1 m else name1
    nfLoop ex ext name2 m (name2 ++ "." ++ ext) 0 100

/-- The exactly 100 filenames `normalize_filename` can ever probe for a
given input: the base name, then the suffixed names `-1` … `-99` (all
built from the name as re-truncated when the first suffix is needed). -/
def nfCandidates (name : String) (m : Int) (ext : String) : List String :=
  let m' := m - 3
  let name' := if (name.length : Int) > m' then pySliceTo name m' else name
  (name ++ "." ++ ext) :: (List.range' 1 99).map (fun k => nfCandidate name' m' ext k)

/-- The probe candidates of `normalize_filename filename`, computed from
the input the same way `normalize_filename` computes its loop state. -/
def nfCandidatesOf (uuidHex : String) (filename : String) : List String :=
  let p := splitext filename
  let name1 := if secure_filename p.1 = "" then uuidHex else secure_filename p.1
  let ext := if secure_filename p.2 = "" then "txt" else secure_filename p.2
  let m : Int := (File.MAX_FILENAME_LENGTH : Int) - (1 + (ext.length : Int))
  let name2 := if (name1.length : Int) > m then pySliceTo name1 m else name1
  nfCandidates name2 m ext

/-! ## Content-addressed file storage (`file_uploads.py`, `store_file`)

The database is a list of `File` rows; the media directory is an
association list from destination paths (`<collection>/<filename>`) to
byte contents. `hashlib.sha256(...).hexdigest()` and
`magic.from_buffer(..., mime=True)` are C libraries outside the
repository and enter as function parameters `sha256hex` and `magicFn`;
whether `db.session.commit()` raises `DBAPIError` is the parameter
`commitFails`. -/

/-- The state `store_file` reads and writes: the `file` table and the
media directory. -/
structure StoreState where
  db : List File
  disk : List (String × List Nat)
deriving DecidableEq, Repr

/-- `file_exists` (`file_uploads.py` lines 83-103): a case-insensitive
match of the filename (the ILIKE pattern has its `%`/`_` wildcards
escaped, so it denotes a case-insensitive literal comparison) together
with an exact match of the collection. -/
def file_exists (db : List File) (coll : String) (fname : String) : Bool :=
  db.any (fun r => (pyLower r.filename == pyLower fname) && (r.collection == coll))

/-- `file.stream.read(8192)` until an empty read: the byte stream cut
into chunks of `n` bytes (the last chunk possibly shorter). The fuel is
an upper bound on the number of reads; with `n ≥ 1` each step consumes
at least one byte, so fuel `l.length` suffices. -/
def chunksOfAux (n : Nat) : Nat → List Nat → List (List Nat)
  | 0, _ => []
  | _ + 1, [] => []
  | fuel + 1, l => l.take n :: chunksOfAux n fuel (l.drop n)

def chunksOf (n : Nat) (l : List Nat) : List (List Nat) :=
  chunksOfAux n l.length l

/-- The chunk loop of `store_file` (`file_uploads.py` lines 179-189):
folds over the chunks accumulating the mimetype, the number of chunks
read, and the byte count. The mimetype is (re)computed only when
`num_chunks_read == 0` — tested after the `+= 1` increment, exactly as
in the source. -/
def readChunks (magicFn : List Nat → String) (chunks : List (List Nat)) :
    String × Nat × Nat :=
  chunks.foldl
    (fun acc chunk =>
      let n := acc.2.1 + 1
      let mt := if n = 0 then magicFn chunk else acc.1
      (mt, n, acc.2.2 + chunk.length))
    ("", 0, 0)

/-- `open(file_path, "wb")` followed by `shutil.copyfileobj`: (over)write
the destination path with the given bytes. -/
def diskWrite (disk : List (String × List Nat)) (path : String)
    (bytes : List Nat) : List (String × List Nat) :=
  disk.filter (fun e => e.1 ≠ path) ++ [(path, bytes)]

/-- `file_path.unlink(missing_ok=True)`: remove the path if present. -/
def diskUnlink (disk : List (String × List Nat)) (path : String) :
    List (String × List Nat) :=
  disk.filter (fun e => e.1 ≠ path)

/-- Contents stored at a path, if any. -/
def diskRead? (disk : List (String × List Nat)) (path : String) :
    Option (List Nat) :=
  (disk.find? (fun e => e.1 == path)).map (fun e => e.2)

/-- `store_file` (`file_uploads.py` lines 153-226). Returns the
`(File, is_newly_created)` pair (or the raised error) together with the
state after the call. The temporary file is local to the call and is not
part of the observable state. The dedup lookup `query(File).filter(
File.content_hash == content_hash).scalar()` is modelled by `find?`
(`scalar()` returns the row when at most one matches, which the
dedup discipline maintains). -/
def store_file (sha256hex : List Nat → String) (magicFn : List Nat → String)
    (uuidHex : String) (commitFails : Bool) (st : StoreState)
    (origFilename : Option String) (content : List Nat) (coll : String) :
    Except StoreErr (File × Bool) × StoreState :=
  match origFilename with
  | none => (.error .valueError, st)
  | some origName =>
    let acc := readChunks magicFn (chunksOf 8192 content)
    let mimetype := acc.1
    let content_size := acc.2.2
    let content_hash := sha256hex content
    match st.db.find? (fun r => r.content_hash == content_hash) with
    | some stored => (.ok (stored, false), st)
    | none =>
      match (normalize_filename (file_exists st.db coll) uuidHex origName).1 with
      | .error e => (.error e, st)
      | .ok filename =>
        let file_path := coll ++ "/" ++ filename
        let disk1 := diskWrite st.disk file_path content
        let stored : File := ⟨filename, coll, mimetype, content_size, content_hash⟩
        if commitFails then
          (.error .dbError, ⟨st.db, diskUnlink disk1 file_path⟩)
        else
          (.ok (stored, true), ⟨st.db ++ [stored], disk1⟩)

/-! ## Blog-category reordering (`admin/api/views.py`, `order_blog_categories`)

A `BlogCategory` row: `id` (primary key), `slug` (stands in for the
non-order fields) and the unique `order_index` column
(`models.py` lines 20-32). The view manipulates the full table under
`SELECT ... FOR UPDATE`; within our single-request model the state is
simply the list of rows. -/

structure BlogCategory where
  id : Nat
  slug : String
  order_index : Int
deriving DecidableEq, Repr

/-- `ORDER BY order_index` comparison. -/
def catLE (a b : BlogCategory) : Prop :=
  a.order_index ≤ b.order_index

instance : DecidableRel catLE := fun a b => Int.decLe _ _

instance : IsTotal BlogCategory catLE :=
  ⟨fun a b => Int.le_total a.order_index b.order_index⟩

instance : IsTrans BlogCategory catLE :=
  ⟨fun _ _ _ hab hbc => le_trans hab hbc⟩

/-- `db.session.query(BlogCategory).order_by(BlogCategory.order_index)`:
the table sorted by `order_index` (which the schema keeps unique, so the
order is well defined). -/
def sortByOrderIndex (cats : List BlogCategory) : List BlogCategory :=
  List.insertionSort catLE cats

/-- Assignment `category.order_index = value` for the row with the given
id (ids are unique, the primary key). -/
def setOrderIndex (cats : List BlogCategory) (cid : Nat) (idx : Int) :
    List BlogCategory :=
  cats.map (fun c => if c.id = cid then { c with order_index := idx } else c)

/-- One renumbering pass of `order_blog_categories`
(`views.py` lines 51-63): walk the submitted ids in order, assigning
`start, start + step, start + 2*step, …` (`itertools.count(start, step)`). -/
def phaseAssign (cats : List BlogCategory) (submitted : List Nat)
    (start step : Int) : List BlogCategory :=
  match submitted with
  | [] => cats
  | cid :: rest => phaseAssign (setOrderIndex cats cid start) rest (start + step) step

instance {α β : Type} [DecidableEq α] [DecidableEq β] :
    DecidableEq (Except α β) := fun a b =>
  match a, b with
  | .ok x, .ok y =>
    if h : x = y then isTrue (by rw [h]) else isFalse (by simp [h])
  | .error x, .error y =>
    if h : x = y then isTrue (by rw [h]) else isFalse (by simp [h])
  | .ok _, .error _ => isFalse (by simp)
  | .error _, .ok _ => isFalse (by simp)

/-- The observable outcome of `order_blog_categories`: the table after
the request (`dbAfter`), the table state flushed between the two phases
(`flushed`, `none` on the no-mutation paths), and the HTTP-level result:
`BadRequest` or the list of categories handed to the template. -/
structure ReorderResult where
  dbAfter : List BlogCategory
  flushed : Option (List BlogCategory)
  response : Except String (List BlogCategory)
deriving Repr

/-- `order_blog_categories` (`views.py` lines 28-68). `submitted` is the
parsed `category_id` form list. `existing_categories_by_id` is a dict
keyed by id built from the rows in `order_index` order; its key list is
modelled by `dedup` of the sorted ids (first occurrence kept, as for
dict insertion order; ids are in fact unique). -/
def order_blog_categories (dbCats : List BlogCategory) (submitted : List Nat) :
    ReorderResult :=
  if submitted.length = 0 then
    ⟨dbCats, none, .error "BadRequest"⟩
  else
    let categories := sortByOrderIndex dbCats
    let existingIds := (categories.map (fun c => c.id)).dedup
    if submitted.toFinset ≠ existingIds.toFinset then
      ⟨dbCats, none, .ok categories⟩
    else if submitted = existingIds then
      ⟨dbCats, none, .ok categories⟩
    else
      let s1 := phaseAssign dbCats submitted (-1) (-1)
      let s2 := phaseAssign s1 submitted 1 1
      ⟨s2, some s1, .ok (sortByOrderIndex s2)⟩

/-! ## Hosted-URL detection (`utils/url.py` and `file_uploads.py`)

`is_hosted_url` joins the candidate URL onto `request.host_url`
(`<scheme>://<netloc>/`) with `urllib.parse.urljoin` and compares the
resulting network location with the host's. Only the network location of
the join result matters, so the model computes exactly that, following
CPython's `urlsplit`/`urljoin` (with an http(s) base, which is the only
shape `request.host_url` takes) — including the
`ValueError("Invalid IPv6 URL")` that `urlsplit` raises for a network
location containing `'['` without `']'` or vice versa, an error that
propagates out of `is_hosted_url` and `detect_file_references`. The host
URL itself is well formed (Flask builds it), so only splitting the
candidate URL can raise. -/

/-- Valid scheme characters after the leading letter
(`urllib.parse.scheme_chars`). -/
def isSchemeChar (c : Char) : Bool :=
  c.isAlphanum || c == '+' || c == '-' || c == '.'

/-- `urlsplit`'s scheme detection: a leading letter, a run of scheme
characters, then `':'`. Returns the scheme (lowercased, as `urlsplit`
does) and the remainder, or no scheme and the whole string. -/
def splitScheme (url : String) : Option String × String :=
  match url.data with
  | [] => (none, url)
  | c :: _ =>
    if c.isAlpha then
      let pre := url.data.takeWhile isSchemeChar
      let rest := url.data.drop pre.length
      match rest with
      | ':' :: tail => (some (pyLower (String.mk pre)), String.mk tail)
      | _ => (none, url)
    else
      (none, url)

/-- The `ValueError("Invalid IPv6 URL")` CPython's `urlsplit` raises
when a network location contains `'['` without `']'` or `']'` without
`'['`. -/
inductive UrlErr where
  | invalidIPv6Url
deriving DecidableEq, Repr

/-- The network location of a URL (`urlsplit(url).netloc`): present only
when (after the scheme) the string starts with `"//"`, and then extends
to the next `'/'`, `'?'` or `'#'`. Following CPython's `urlsplit`, a
netloc with unmatched square brackets raises
`ValueError("Invalid IPv6 URL")`. -/
def urlsplitNetloc (url : String) : Except UrlErr (Option String) :=
  match ((splitScheme url).2).data with
  | '/' :: '/' :: rest =>
    let netloc := rest.takeWhile (fun c => !(c == '/' || c == '?' || c == '#'))
    if (netloc.contains '[' && !(netloc.contains ']')) ||
        (netloc.contains ']' && !(netloc.contains '[')) then
      .error .invalidIPv6Url
    else
      .ok (some (String.mk netloc))
  | _ => .ok none

/-- The path of a URL (`urlsplit(url).path`): what remains after the
scheme and the network location, up to the first `'?'` or `'#'`.
`urlsplit` validates the netloc before returning anything, so the same
`ValueError` applies. -/
def urlsplitPath (url : String) : Except UrlErr String :=
  match urlsplitNetloc url with
  | .error e => .error e
  | .ok _ =>
    let rest2 :=
      match ((splitScheme url).2).data with
      | '/' :: '/' :: rest =>
        rest.dropWhile (fun c => !(c == '/' || c == '?' || c == '#'))
      | other => other
    .ok (String.mk (rest2.takeWhile (fun c => !(c == '?' || c == '#'))))

/-- The path `urlsplit` returns, defaulting to `""` in the (raising)
malformed case; used only to state hypotheses about URLs that `urlsplit`
accepts. -/
def urlsplitPathD (url : String) : String :=
  match urlsplitPath url with
  | .ok p => p
  | .error _ => ""

/-- `urllib.parse.uses_relative`. -/
def uses_relative : List String :=
  ["", "ftp", "http", "gopher", "nntp", "imap", "wais", "file", "https",
   "shttp", "mms", "prospero", "rtsp", "rtspu", "sftp", "svn", "svn+ssh",
   "ws", "wss"]

/-- `urllib.parse.uses_netloc`. -/
def uses_netloc : List String :=
  ["", "ftp", "http", "gopher", "nntp", "telnet", "imap", "wais", "file",
   "mms", "https", "shttp", "snews", "prospero", "rtsp", "rtspu", "rsync",
   "svn", "svn+ssh", "sftp", "nfs", "git", "git+ssh", "ws", "wss",
   "itms-services"]

/-- The network location of `urljoin(base, url)` for a base of the form
`<bscheme>://<bnetloc>/`, following CPython's `urljoin`: a URL without a
scheme inherits the base's scheme; if the (effective) scheme differs
from the base's or does not support relative resolution the URL is
returned as is; otherwise, for schemes that use a network location, the
URL's own non-empty netloc wins and the base's is inherited otherwise.
`urljoin` splits the candidate URL before anything else (except for an
empty URL, returned early as the base), so the netloc `ValueError`
propagates from here. -/
def urljoinNetloc (bscheme bnetloc : String) (url : String) :
    Except UrlErr String :=
  if url = "" then .ok bnetloc
  else
    match urlsplitNetloc url with
    | .error e => .error e
    | .ok n? =>
      let scheme := match (splitScheme url).1 with
        | some s => s
        | none => bscheme
      let unetloc := n?.getD ""
      if scheme ≠ bscheme ∨ ¬ scheme ∈ uses_relative then .ok unetloc
      else if scheme ∈ uses_netloc then
        .ok (if unetloc ≠ "" then unetloc else bnetloc)
      else .ok unetloc

/-- `is_hosted_url` (`utils/url.py` lines 6-18): the network location of
the URL joined onto the host URL equals the host's network location. The
`ValueError` that `urlsplit`/`urljoin` raise at line 15 on a malformed
URL propagates to the caller. -/
def is_hosted_url (bscheme bnetloc : String) (url : String) :
    Except UrlErr Bool :=
  match urljoinNetloc bscheme bnetloc url with
  | .error e => .error e
  | .ok n => .ok (n == bnetloc)

/-- The closed set of collection tags (`FileCollection` enum,
`file_uploads.py` lines 31-32). -/
def FILE_COLLECTIONS : List String := ["images"]

/-- Consume one or more `'/'` characters (`/+` in the path regex). -/
def dropSlashes1 (cs : List Char) : Option (List Char) :=
  match cs with
  | '/' :: rest => some (rest.dropWhile (fun c => c == '/'))
  | _ => none

/-- Consume a literal string (a `re.escape`d fragment of the regex). -/
def dropLit (lit : List Char) (cs : List Char) : Option (List Char) :=
  if lit.isPrefixOf cs then some (cs.drop lit.length) else none

/-- The anchored path regex of `detect_file_references`
(`file_uploads.py` lines 62-65):
`^/+<media_url_prefix>/+(<collections>)/+([^/]+)$`, deciding whether a
URL path names a hosted file and extracting the `(collection, filename)`
groups. Faithful to the regex for a prefix (as configured:
`MEDIA_URL_PREFIX.strip("/") = "media"`) that is non-empty and free of
`'/'`, for which the greedy `/+` runs match deterministically. -/
def matchHostedPath (mediaPfx : String) (path : String) :
    Option (String × String) :=
  match dropSlashes1 path.data with
  | none => none
  | some cs1 =>
    match dropLit mediaPfx.data cs1 with
    | none => none
    | some cs2 =>
      match dropSlashes1 cs2 with
      | none => none
      | some cs3 =>
        FILE_COLLECTIONS.findSome? (fun coll =>
          match dropLit coll.data cs3 with
          | none => none
          | some cs4 =>
            match dropSlashes1 cs4 with
            | none => none
            | some cs5 =>
              if cs5 ≠ [] ∧ cs5.all (fun c => c ≠ '/') then
                some (coll, String.mk cs5)
              else
                none)

/-- The `for image_url in all_image_urls` loop of `detect_file_references`
(`file_uploads.py` lines 69-75): walk the extracted URLs in order,
collecting a `(collection, filename)` clause for each hosted URL whose
path has the media shape; the `ValueError` that `is_hosted_url` (line 70)
or `urlsplit` (line 71) raises on a malformed URL aborts the loop and
propagates. -/
def collectClauses (bscheme bnetloc mediaPfx : String) :
    List String → Except UrlErr (List (String × String))
  | [] => .ok []
  | u :: rest =>
    match is_hosted_url bscheme bnetloc u with
    | .error e => .error e
    | .ok false => collectClauses bscheme bnetloc mediaPfx rest
    | .ok true =>
      match urlsplitPath u with
      | .error e => .error e
      | .ok path =>
        match collectClauses bscheme bnetloc mediaPfx rest with
        | .error e => .error e
        | .ok cls =>
          match matchHostedPath mediaPfx path with
          | none => .ok cls
          | some cl => .ok (cl :: cls)

/-- The URL-classification and query phase of `detect_file_references`
(`file_uploads.py` lines 61-80), applied to the URLs extracted from the
Markdown text by the four `IMAGE_URL_REGEXES` patterns (the extraction
itself, a use of the `re` standard library, is abstracted into the
`urls` argument). Returns the matching `File` rows together with a flag
recording whether the database was queried at all, or propagates the
`ValueError` raised while classifying a malformed URL. -/
def detect_file_references (bscheme bnetloc mediaPfx : String)
    (db : List File) (urls : List String) :
    Except UrlErr (List File × Bool) :=
  match collectClauses bscheme bnetloc mediaPfx urls with
  | .error e => .error e
  | .ok filter_clauses =>
    if filter_clauses = [] then
      .ok ([], false)
    else
      .ok (db.filter (fun r => filter_clauses.any
        (fun cl => r.collection == cl.1 && r.filename == cl.2)), true)

/-! ## Helper lemmas -/

/-- The chunk-loop fold never touches the mimetype accumulator: the
`num_chunks_read == 0` test is made after the increment, so it is never
true. -/
theorem readChunks_foldl_fst (magicFn : List Nat → String)
    (chunks : List (List Nat)) :
    ∀ acc : String × Nat × Nat,
      (chunks.foldl
        (fun acc chunk =>
          let n := acc.2.1 + 1
          let mt := if n = 0 then magicFn chunk else acc.1
          (mt, n, acc.2.2 + chunk.length)) acc).1 = acc.1 := by
  induction chunks with
  | nil => intro acc; rfl
  | cons c cs ih =>
    intro acc
    simpa [List.foldl_cons, Nat.succ_ne_zero] using ih _

/-- The mimetype computed by the chunk loop is always the initial `""`. -/
theorem readChunks_fst (magicFn : List Nat → String)
    (chunks : List (List Nat)) : (readChunks magicFn chunks).1 = "" :=
  readChunks_foldl_fst magicFn chunks ("", 0, 0)

theorem find?_append_of_none {α : Type} (p : α → Bool) (l1 l2 : List α)
    (h : l1.find? p = none) : (l1 ++ l2).find? p = l2.find? p := by
  rw [List.find?_append, h, Option.none_or]

theorem diskRead?_unlink_self (disk : List (String × List Nat))
    (path : String) : diskRead? (diskUnlink disk path) path = none := by
  unfold diskRead? diskUnlink
  rw [Option.map_eq_none', List.find?_eq_none]
  intro e he
  have : e.1 ≠ path := by
    have := List.of_mem_filter he
    simpa using this
  simpa using this

theorem diskUnlink_diskWrite (disk : List (String × List Nat))
    (path : String) (bytes : List Nat) :
    diskUnlink (diskWrite disk path bytes) path = diskUnlink disk path := by
  unfold diskUnlink diskWrite
  rw [List.filter_append]
  simp

theorem diskRead?_unlink_other (disk : List (String × List Nat))
    (path p : String) (hp : p ≠ path) :
    diskRead? (diskUnlink disk path) p = diskRead? disk p := by
  unfold diskRead? diskUnlink
  induction disk with
  | nil => rfl
  | cons e t ih =>
    by_cases he : e.1 = path
    · have hep : (e.1 == p) = false := by
        rw [beq_eq_false_iff_ne]
        rw [he]
        exact fun h => hp h.symm
      simp only [List.filter_cons, he, decide_eq_true_eq]
      simp only [List.find?_cons, hep]
      simpa using ih
    · simp only [List.filter_cons, List.find?_cons]
      cases hep : (e.1 == p) with
      | true => simp [he, hep]
      | false => simpa [he, hep] using ih

/-! ## C1: the dedup fast path of `store_file` -/

/-- C1. If the uploaded bytes hash to the content hash of a row already
in the `file` table, `store_file` returns that row with
`is_newly_created = False` and changes neither the table nor the disk;
consequently, uploading the same bytes twice (with any filenames)
returns `True` then `False` and leaves exactly one row with that
content hash. -/
theorem store_file_dedup_fast_path (sha256hex magicFn : List Nat → String)
    (uuidHex : String) (commitFails : Bool) (st : StoreState)
    (origName : String) (content : List Nat) (coll : String) :
    (∀ row, st.db.find? (fun r => r.content_hash == sha256hex content) = some row →
      store_file sha256hex magicFn uuidHex commitFails st (some origName) content coll
        = (.ok (row, false), st)) ∧
    (st.db.find? (fun r => r.content_hash == sha256hex content) = none →
      ∀ fname,
        (normalize_filename (file_exists st.db coll) uuidHex origName).1 = .ok fname →
      ∃ f1 st1,
        store_file sha256hex magicFn uuidHex false st (some origName) content coll
          = (.ok (f1, true), st1) ∧
        (∀ (origName2 : String) (cf2 : Bool),
          store_file sha256hex magicFn uuidHex cf2 st1 (some origName2) content coll
            = (.ok (f1, false), st1)) ∧
        (st1.db.filter (fun r => r.content_hash == sha256hex content)).length = 1) := by
  constructor
  · intro row hfound
    simp [store_file, hfound]
  · intro hnone fname hnorm
    refine ⟨⟨fname, coll, (readChunks magicFn (chunksOf 8192 content)).1,
      (readChunks magicFn (chunksOf 8192 content)).2.2, sha256hex content⟩,
      ⟨st.db ++ [⟨fname, coll, (readChunks magicFn (chunksOf 8192 content)).1,
        (readChunks magicFn (chunksOf 8192 content)).2.2, sha256hex content⟩],
       diskWrite st.disk (coll ++ "/" ++ fname) content⟩, ?_, ?_, ?_⟩
    · simp [store_file, hnone, hnorm]
    · intro origName2 cf2
      have hfind : (st.db ++ [(⟨fname, coll,
          (readChunks magicFn (chunksOf 8192 content)).1,
          (readChunks magicFn (chunksOf 8192 content)).2.2,
          sha256hex content⟩ : File)]).find?
            (fun r => r.content_hash == sha256hex content)
          = some ⟨fname, coll, (readChunks magicFn (chunksOf 8192 content)).1,
              (readChunks magicFn (chunksOf 8192 content)).2.2, sha256hex content⟩ := by
        rw [find?_append_of_none _ _ _ hnone]
        simp [List.find?_cons]
      simp [store_file, hfind]
    · have hfilter : st.db.filter (fun r => r.content_hash == sha256hex content) = [] := by
        rw [List.filter_eq_nil]
        intro r hr
        exact List.find?_eq_none.mp hnone r hr
      simp [List.filter_append, hfilter]

/-! ## C2: the MIME type is never actually sniffed

In `store_file` the counter check `num_chunks_read == 0` is made after
`num_chunks_read += 1`, so `magic.from_buffer` is never invoked and the
recorded mimetype of every newly created row is the initial `""`, not
the sniffed content type. -/

/-- C2. Every row newly created by `store_file` records the mimetype
`""`, whatever the magic-byte detector would have said. -/
theorem store_file_mimetype_not_sniffed (sha256hex magicFn : List Nat → String)
    (uuidHex : String) (commitFails : Bool) (st : StoreState)
    (origName : String) (content : List Nat) (coll : String)
    (f : File) (st' : StoreState)
    (h : store_file sha256hex magicFn uuidHex commitFails st
      (some origName) content coll = (.ok (f, true), st')) :
    f.mimetype = "" := by
  cases hfind : st.db.find? (fun r => r.content_hash == sha256hex content) with
  | some row => simp [store_file, hfind] at h
  | none =>
    cases hnorm : (normalize_filename (file_exists st.db coll) uuidHex origName).1 with
    | error e => simp [store_file, hfind, hnorm] at h
    | ok fname =>
      cases commitFails with
      | true => simp [store_file, hfind, hnorm] at h
      | false =>
        simp only [store_file, hfind, hnorm, if_neg Bool.false_ne_true,
          Prod.mk.injEq, Except.ok.injEq] at h
        rw [← h.1.1]
        exact readChunks_fst magicFn (chunksOf 8192 content)

/-! ## C9: compensating cleanup when the insert fails -/

/-- C9. When the commit of the new row raises, `store_file` removes the
just-written destination file (the rest of the disk is untouched),
leaves the table as it was, and re-raises: the call returns the error,
never a success. -/
theorem store_file_cleanup_on_insert_failure
    (sha256hex magicFn : List Nat → String) (uuidHex : String)
    (st : StoreState) (origName : String) (content : List Nat) (coll : String)
    (fname : String)
    (hnone : st.db.find? (fun r => r.content_hash == sha256hex content) = none)
    (hnorm : (normalize_filename (file_exists st.db coll) uuidHex origName).1
      = .ok fname) :
    store_file sha256hex magicFn uuidHex true st (some origName) content coll
      = (.error .dbError,
         ⟨st.db, diskUnlink (diskWrite st.disk (coll ++ "/" ++ fname) content)
            (coll ++ "/" ++ fname)⟩) ∧
    diskRead? (store_file sha256hex magicFn uuidHex true st
        (some origName) content coll).2.disk (coll ++ "/" ++ fname) = none ∧
    (∀ p, p ≠ coll ++ "/" ++ fname →
      diskRead? (store_file sha256hex magicFn uuidHex true st
          (some origName) content coll).2.disk p = diskRead? st.disk p) := by
  have heq : store_file sha256hex magicFn uuidHex true st (some origName) content coll
      = (.error .dbError,
         ⟨st.db, diskUnlink (diskWrite st.disk (coll ++ "/" ++ fname) content)
            (coll ++ "/" ++ fname)⟩) := by
    simp [store_file, hnone, hnorm]
  refine ⟨heq, ?_, ?_⟩
  · rw [heq]
    exact diskRead?_unlink_self _ _
  · intro p hp
    rw [heq]
    rw [diskUnlink_diskWrite]
    exact diskRead?_unlink_other st.disk (coll ++ "/" ++ fname) p hp

/-! ## C3: uniqueness of `content_hash` -/

/-- C3 counterexample. In the declared schema of the `file` table the
`content_hash` column carries no uniqueness constraint (`unique` is
false); the only unique column is `filename`. There is therefore no
database-level uniqueness constraint on `content_hash` for a concurrent
duplicate insert to fail against. -/
theorem content_hash_column_lacks_unique_constraint :
    fileTableColumns.find? (fun c => c.name == "content_hash")
      = some ⟨"content_hash", some 64, false, false⟩ ∧
    (∀ c ∈ fileTableColumns, c.name = "content_hash" → c.unique = false) ∧
    (∀ c ∈ fileTableColumns, c.unique = true → c.name = "filename") := by
  decide

/-- C3 amended. The no-two-rows-share-a-hash invariant is maintained by
`store_file` itself (application level): a call never adds a row whose
content hash is already present, so distinctness of the stored hashes is
preserved by every call. -/
theorem store_file_preserves_hash_uniqueness
    (sha256hex magicFn : List Nat → String) (uuidHex : String)
    (commitFails : Bool) (st : StoreState) (origFilename : Option String)
    (content : List Nat) (coll : String)
    (h : (st.db.map (fun r => r.content_hash)).Nodup) :
    (((store_file sha256hex magicFn uuidHex commitFails st
        origFilename content coll).2).db.map
      (fun r => r.content_hash)).Nodup := by
  cases origFilename with
  | none => simpa [store_file] using h
  | some origName =>
    cases hfind : st.db.find? (fun r => r.content_hash == sha256hex content) with
    | some row => simpa [store_file, hfind] using h
    | none =>
      cases hnorm : (normalize_filename (file_exists st.db coll) uuidHex origName).1 with
      | error e => simpa [store_file, hfind, hnorm] using h
      | ok fname =>
        cases commitFails with
        | true => simpa [store_file, hfind, hnorm] using h
        | false =>
          have hnotmem : ∀ x ∈ st.db, ¬x.content_hash = sha256hex content := by
            intro x hx hxh
            have := List.find?_eq_none.mp hfind x hx
            rw [hxh] at this
            simp at this
          simp only [store_file, hfind, hnorm, if_neg Bool.false_ne_true]
          simpa [List.nodup_append] using ⟨h, hnotmem⟩

/-! ## Characterization of the `normalize_filename` collision loop -/

/-- The result the collision loop is proved equal to: the first
candidate the oracle reports free, or `ResourceExhausted` when all
candidates are taken. -/
def firstFreeResult (ex : String → Bool) (cands : List String) :
    Except StoreErr String :=
  match cands.find? (fun c => !(ex c)) with
  | some c => .ok c
  | none => .error .resourceExhausted

/-- The loop makes at most `fuel` oracle probes. -/
theorem nfLoop_snd_le (ex : String → Bool) (ext : String) :
    ∀ (fuel : Nat) (name : String) (m : Int) (filename : String) (s : Nat),
      (nfLoop ex ext name m filename s fuel).2 ≤ fuel := by
  intro fuel
  induction fuel with
  | zero => intro name m filename s; simp [nfLoop]
  | succ fuel ih =>
    intro name m filename s
    rw [nfLoop]
    by_cases hex : ex filename
    · rw [if_pos hex]
      by_cases h1 : s + 1 = 1
      · simp only [h1, if_pos]
        exact Nat.succ_le_succ (ih _ _ _ _)
      · rw [if_neg h1]
        by_cases h99 : s + 1 > 99
        · rw [if_pos h99]; omega
        · rw [if_neg h99]
          exact Nat.succ_le_succ (ih _ _ _ _)
    · rw [if_neg hex]; omega

/-- Steady state of the collision loop: from suffix `s` (with the name
already re-truncated), the loop scans the candidates `s … 99` and
returns the first free one, or `ResourceExhausted` past 99. -/
theorem nfLoop_eq_firstFree (ex : String → Bool) (ext name : String) (m : Int) :
    ∀ (fuel s : Nat), 1 ≤ s → s ≤ 99 → 100 - s ≤ fuel →
      (nfLoop ex ext name m (nfCandidate name m ext s) s fuel).1 =
        firstFreeResult ex
          ((List.range' s (100 - s)).map (fun k => nfCandidate name m ext k)) := by
  intro fuel
  induction fuel with
  | zero => intro s h1 h99 hf; omega
  | succ fuel ih =>
    intro s h1 h99 hf
    have hn : 100 - s = (99 - s) + 1 := by omega
    have hrange : List.range' s (100 - s) = s :: List.range' (s + 1) (99 - s) := by
      rw [hn, List.range'_succ]
    by_cases hex : ex (nfCandidate name m ext s)
    · by_cases hs : s = 99
      · subst hs
        rw [nfLoop, if_pos hex]
        norm_num
        simp [firstFreeResult, hex]
      · have hs1 : ¬ (99 + 1 = 1) := by omega
        have h1' : ¬ (s + 1 = 1) := by omega
        have h99' : ¬ (s + 1 > 99) := by omega
        rw [nfLoop, if_pos hex, if_neg h1', if_neg h99']
        rw [ih (s + 1) (by omega) (by omega) (by omega)]
        rw [hrange]
        simp only [List.map_cons, firstFreeResult, List.find?_cons, hex,
          Bool.not_true]
        have h2 : 99 - s = 100 - (s + 1) := by omega
        rw [h2]
    · rw [nfLoop, if_neg hex]
      rw [hrange]
      simp [firstFreeResult, List.find?_cons, hex]

/-- The collision loop as entered by `normalize_filename` (suffix `0`,
fuel `100`) scans exactly the candidate list `nfCandidates`. -/
theorem nfLoop_from_start (ex : String → Bool) (ext name : String) (m : Int) :
    (nfLoop ex ext name m (name ++ "." ++ ext) 0 100).1 =
      firstFreeResult ex (nfCandidates name m ext) := by
  by_cases hex : ex (name ++ "." ++ ext)
  · rw [nfLoop, if_pos hex]
    norm_num
    rw [nfLoop_eq_firstFree ex ext _ _ 99 1 (by omega) (by omega) (by omega)]
    simp only [nfCandidates, firstFreeResult, List.find?_cons, hex, Bool.not_true]
  · rw [nfLoop, if_neg hex]
    simp [nfCandidates, firstFreeResult, List.find?_cons, hex]

/-- `normalize_filename` on a filename with an extension is exactly a
first-free scan over its 100 candidates. -/
theorem normalize_filename_eq_firstFree (ex : String → Bool)
    (uuidHex filename : String) (hext : (splitext filename).2 ≠ "") :
    (normalize_filename ex uuidHex filename).1 =
      firstFreeResult ex (nfCandidatesOf uuidHex filename) := by
  rw [normalize_filename, nfCandidatesOf]
  rw [if_neg hext]
  exact nfLoop_from_start ex _ _ _

/-! ## C8: termination and probe bound of `normalize_filename` -/

/-- C8. For every oracle, `normalize_filename` makes at most 100
existence probes (the base name plus the suffixed names `-1` … `-99`),
returns the first candidate reported free, and fails with
`ResourceExhausted` (rather than looping further) when all 100
candidates are taken. -/
theorem normalize_filename_probe_bound (ex : String → Bool)
    (uuidHex filename : String) (hext : (splitext filename).2 ≠ "") :
    (normalize_filename ex uuidHex filename).2 ≤ 100 ∧
    (nfCandidatesOf uuidHex filename).length = 100 ∧
    (normalize_filename ex uuidHex filename).1 =
      firstFreeResult ex (nfCandidatesOf uuidHex filename) := by
  refine ⟨?_, ?_, normalize_filename_eq_firstFree ex uuidHex filename hext⟩
  · rw [normalize_filename, if_neg hext]
    exact nfLoop_snd_le ex _ 100 _ _ _ _
  · simp [nfCandidatesOf, nfCandidates]

/-! ## C7: the length bound on normalized filenames -/

theorem pySliceTo_length_le (s : String) (k : Int) (hk : 0 ≤ k) :
    (pySliceTo s k).length ≤ k.toNat := by
  rw [pySliceTo, if_pos hk]
  simpa using List.length_take_le k.toNat s.data

/-- Decimal representations of suffixes 1-99 take at most 2 characters. -/
theorem natRepr_length_le_two : ∀ k : Nat, k < 100 → (toString k).length ≤ 2 := by
  decide

/-- Every candidate filename that `normalize_filename` can return is
within the 200-character bound, provided the sanitized extension
(including the `txt` fallback) is at most 196 characters long. -/
theorem nfCandidatesOf_length_le (uuidHex filename : String)
    (hext : (if secure_filename (splitext filename).2 = ""
        then "txt" else secure_filename (splitext filename).2).length ≤ 196) :
    ∀ c ∈ nfCandidatesOf uuidHex filename,
      c.length ≤ File.MAX_FILENAME_LENGTH := by
  intro c hc
  rw [nfCandidatesOf, nfCandidates] at hc
  set ext := (if secure_filename (splitext filename).2 = ""
      then "txt" else secure_filename (splitext filename).2) with hextdef
  set name1 := (if secure_filename (splitext filename).1 = ""
      then uuidHex else secure_filename (splitext filename).1) with hname1
  set e := ext.length with he
  set m : Int := (File.MAX_FILENAME_LENGTH : Int) - (1 + (e : Int)) with hm
  have hm0 : 0 ≤ m := by
    rw [hm]
    unfold File.MAX_FILENAME_LENGTH
    omega
  have hmtoNat : m.toNat = 199 - e := by
    rw [hm]
    unfold File.MAX_FILENAME_LENGTH
    omega
  set name2 := (if (name1.length : Int) > m then pySliceTo name1 m else name1)
    with hname2
  have hname2len : name2.length ≤ 199 - e := by
    rw [hname2]
    by_cases hgt : (name1.length : Int) > m
    · rw [if_pos hgt]
      have := pySliceTo_length_le name1 m hm0
      omega
    · rw [if_neg hgt]
      push_neg at hgt
      omega
  rcases List.mem_cons.mp hc with hhead | htail
  · subst hhead
    simp only [String.length_append]
    unfold File.MAX_FILENAME_LENGTH
    have : ("." : String).length = 1 := rfl
    omega
  · obtain ⟨k, hk, hck⟩ := List.mem_map.mp htail
    have hkr : 1 ≤ k ∧ k < 1 + 99 := List.mem_range'_1.mp hk
    set m' := m - 3 with hm'
    set name' := (if (name2.length : Int) > m' then pySliceTo name2 m' else name2)
      with hname'
    have hm'0 : 0 ≤ m' := by
      rw [hm', hm]
      unfold File.MAX_FILENAME_LENGTH
      omega
    have hm'toNat : m'.toNat = 196 - e := by
      rw [hm', hm]
      unfold File.MAX_FILENAME_LENGTH
      omega
    have hslice : (pySliceTo name' m').length ≤ 196 - e := by
      have := pySliceTo_length_le name' m' hm'0
      omega
    have hrepr : (toString k).length ≤ 2 := natRepr_length_le_two k (by omega)
    rw [← hck]
    rw [nfCandidate]
    simp only [String.length_append]
    unfold File.MAX_FILENAME_LENGTH
    have h1 : ("-" : String).length = 1 := rfl
    have h2 : ("." : String).length = 1 := rfl
    omega

set_option maxRecDepth 100000 in
/-- C7 counterexample. A filename whose extension survives sanitization
at 300 characters is returned by `normalize_filename` (under an oracle
that reports every name free) with length 301, exceeding
`File.MAX_FILENAME_LENGTH = 200`: only the name component is ever
truncated, so a long extension defeats the bound. -/
theorem normalize_filename_exceeds_bound_on_long_extension :
    (normalize_filename (fun _ => false) "u"
        ("a." ++ String.mk (List.replicate 300 'b'))).1
      = .ok ("." ++ String.mk (List.replicate 300 'b')) ∧
    ("." ++ String.mk (List.replicate 300 'b')).length
      = File.MAX_FILENAME_LENGTH + 101 := by
  constructor
  · rfl
  · rfl

/-- C7 amended. Whenever the sanitized extension (with the `txt`
fallback) is at most 196 characters, every filename successfully
returned by `normalize_filename` — for any oracle state — has length at
most `File.MAX_FILENAME_LENGTH = 200` (only the name component is
truncated to fit). -/
theorem normalize_filename_length_bounded (ex : String → Bool)
    (uuidHex filename out : String)
    (hext : (if secure_filename (splitext filename).2 = ""
        then "txt" else secure_filename (splitext filename).2).length ≤ 196)
    (hok : (normalize_filename ex uuidHex filename).1 = .ok out) :
    out.length ≤ File.MAX_FILENAME_LENGTH := by
  by_cases hempty : (splitext filename).2 = ""
  · rw [normalize_filename, if_pos hempty] at hok
    simp at hok
  · rw [normalize_filename_eq_firstFree ex uuidHex filename hempty] at hok
    rw [firstFreeResult] at hok
    cases hfind : (nfCandidatesOf uuidHex filename).find? (fun c => !(ex c)) with
    | none => rw [hfind] at hok; simp at hok
    | some c =>
      rw [hfind] at hok
      simp only [Except.ok.injEq] at hok
      subst hok
      exact nfCandidatesOf_length_le uuidHex filename hext c
        (List.mem_of_find?_eq_some hfind)

/-! ## Lemmas about the two-phase renumbering -/

theorem setOrderIndex_map_id (cats : List BlogCategory) (cid : Nat) (idx : Int) :
    (setOrderIndex cats cid idx).map (fun c => c.id) = cats.map (fun c => c.id) := by
  rw [setOrderIndex, List.map_map]
  apply List.map_congr_left
  intro c _
  by_cases h : c.id = cid
  · simp [h]
  · simp [h]

theorem phaseAssign_map_id (submitted : List Nat) :
    ∀ (cats : List BlogCategory) (start step : Int),
      (phaseAssign cats submitted start step).map (fun c => c.id)
        = cats.map (fun c => c.id) := by
  induction submitted with
  | nil => intro cats start step; rfl
  | cons cid rest ih =>
    intro cats start step
    rw [phaseAssign, ih, setOrderIndex_map_id]

/-- A renumbering pass updates each row whose id occurs in the submitted
list to the value determined by the position of its id (for a
duplicate-free submitted list, matching the dict-based assignment of the
source, where a later assignment would overwrite an earlier one). -/
theorem phaseAssign_eq_map (submitted : List Nat) (hnd : submitted.Nodup) :
    ∀ (cats : List BlogCategory) (start step : Int),
      phaseAssign cats submitted start step =
        cats.map (fun c =>
          if c.id ∈ submitted then
            { c with order_index := start + step * (submitted.indexOf c.id : Int) }
          else c) := by
  induction submitted with
  | nil =>
    intro cats start step
    simp [phaseAssign]
  | cons cid rest ih =>
    intro cats start step
    have hcid : cid ∉ rest := (List.nodup_cons.mp hnd).1
    rw [phaseAssign, ih (List.nodup_cons.mp hnd).2, setOrderIndex, List.map_map]
    apply List.map_congr_left
    intro c _
    simp only [Function.comp_apply]
    by_cases hc : c.id = cid
    · have hnotrest : ¬ c.id ∈ rest := by rw [hc]; exact hcid
      simp [hc, hnotrest, hcid, List.indexOf_cons_self]
    · by_cases hr : c.id ∈ rest
      · have hmem : c.id ∈ cid :: rest := List.mem_cons_of_mem _ hr
        have hidx : (cid :: rest).indexOf c.id = (rest.indexOf c.id) + 1 :=
          List.indexOf_cons_ne rest (fun h => hc h.symm)
        simp only [if_neg hc, if_pos hr, if_pos hmem, hidx]
        congr 1
        push_cast
        ring
      · have hmem : ¬ c.id ∈ cid :: rest := by
          rw [List.mem_cons]
          push_neg
          exact ⟨hc, hr⟩
        simp [hc, hr, hmem]

/-- When the submitted ids cover every row, the renumbering pass rewrites
every row. -/
theorem phaseAssign_full (dbCats : List BlogCategory) (submitted : List Nat)
    (hnd : submitted.Nodup) (hcov : ∀ c ∈ dbCats, c.id ∈ submitted)
    (start step : Int) :
    phaseAssign dbCats submitted start step =
      dbCats.map (fun c =>
        { c with order_index := start + step * (submitted.indexOf c.id : Int) }) := by
  rw [phaseAssign_eq_map submitted hnd]
  apply List.map_congr_left
  intro c hc
  rw [if_pos (hcov c hc)]

/-- In a duplicate-free list, mapping every element to its own index
yields `[0, 1, …, N-1]`. -/
theorem map_indexOf_eq_range (l : List Nat) (h : l.Nodup) :
    l.map (fun x => l.indexOf x) = List.range l.length := by
  apply List.ext_getElem
  · simp
  · intro i h1 h2
    have h1' : i < l.length := by simpa using h1
    simp only [List.getElem_map, List.getElem_range]
    have hmem : l.get ⟨i, h1'⟩ ∈ l := List.get_mem l i h1'
    have hlt : l.indexOf (l.get ⟨i, h1'⟩) < l.length :=
      List.indexOf_lt_length.mpr hmem
    have hget : l.get ⟨l.indexOf (l.get ⟨i, h1'⟩), hlt⟩ = l.get ⟨i, h1'⟩ :=
      List.indexOf_get hlt
    have hij : (⟨l.indexOf (l.get ⟨i, h1'⟩), hlt⟩ : Fin l.length) = ⟨i, h1'⟩ :=
      h.get_inj_iff.mp hget
    have := Fin.mk_eq_mk.mp hij
    simpa using this

/-- Reduction of `order_blog_categories` on the mutating path: non-empty
submission, matching id sets, different order. -/
theorem order_blog_categories_main_eq (dbCats : List BlogCategory)
    (submitted : List Nat) (hlen : ¬ submitted.length = 0)
    (hset : submitted.toFinset
      = (((sortByOrderIndex dbCats).map (fun c => c.id)).dedup).toFinset)
    (hneq : submitted ≠ ((sortByOrderIndex dbCats).map (fun c => c.id)).dedup) :
    order_blog_categories dbCats submitted =
      ⟨phaseAssign (phaseAssign dbCats submitted (-1) (-1)) submitted 1 1,
       some (phaseAssign dbCats submitted (-1) (-1)),
       .ok (sortByOrderIndex
         (phaseAssign (phaseAssign dbCats submitted (-1) (-1)) submitted 1 1))⟩ := by
  rw [order_blog_categories]
  rw [if_neg hlen]
  simp only
  rw [if_neg (not_not_intro hset), if_neg hneq]

/-- The facts shared by the reorder theorems: under the database
invariant (unique ids) and a genuine permutation submission, both
renumbering passes rewrite the whole table pointwise. -/
theorem reorder_s1_eq (dbCats : List BlogCategory) (submitted : List Nat)
    (hid : (dbCats.map (fun c => c.id)).Nodup)
    (hperm : submitted.Perm (dbCats.map (fun c => c.id))) :
    phaseAssign dbCats submitted (-1) (-1) =
      dbCats.map (fun c =>
        { c with order_index := -1 + (-1) * (submitted.indexOf c.id : Int) }) := by
  have hnd : submitted.Nodup := hperm.nodup_iff.mpr hid
  have hcov : ∀ c ∈ dbCats, c.id ∈ submitted := by
    intro c hc
    exact hperm.mem_iff.mpr (List.mem_map_of_mem _ hc)
  exact phaseAssign_full dbCats submitted hnd hcov (-1) (-1)

theorem reorder_s2_eq (dbCats : List BlogCategory) (submitted : List Nat)
    (hid : (dbCats.map (fun c => c.id)).Nodup)
    (hperm : submitted.Perm (dbCats.map (fun c => c.id))) :
    phaseAssign (phaseAssign dbCats submitted (-1) (-1)) submitted 1 1 =
      dbCats.map (fun c =>
        { c with order_index := 1 + 1 * (submitted.indexOf c.id : Int) }) := by
  have hnd : submitted.Nodup := hperm.nodup_iff.mpr hid
  rw [reorder_s1_eq dbCats submitted hid hperm]
  have hcov : ∀ c ∈ (dbCats.map (fun c =>
      { c with order_index := -1 + (-1) * (submitted.indexOf c.id : Int) })),
      c.id ∈ submitted := by
    intro c hc
    obtain ⟨orig, horig, hmap⟩ := List.mem_map.mp hc
    have hcid : c.id = orig.id := by rw [← hmap]
    rw [hcid]
    exact hperm.mem_iff.mpr (List.mem_map_of_mem _ horig)
  rw [phaseAssign_full _ submitted hnd hcov 1 1, List.map_map]
  apply List.map_congr_left
  intro c _
  rfl

/-! ## C5: stale submissions are silent no-ops -/

/-- C5 counterexample. An empty submitted list has an id set that
differs from the (non-empty) existing id set, yet the view raises
`BadRequest` instead of silently returning the current state: the claim
"no error is raised" fails for the empty list. -/
theorem order_blog_categories_empty_submission_errors :
    (order_blog_categories [⟨1, "a", 1⟩] []).response = .error "BadRequest" ∧
    (order_blog_categories [⟨1, "a", 1⟩] []).dbAfter = [⟨1, "a", 1⟩] ∧
    ([] : List Nat).toFinset
      ≠ (([⟨1, "a", 1⟩] : List BlogCategory).map (fun c => c.id)).toFinset := by
  refine ⟨rfl, rfl, ?_⟩
  decide

/-- C5 amended. For every non-empty submitted list whose id set differs
from the existing id set, the view mutates nothing, raises no error, and
returns the current record set (in `order_index` order) unchanged. -/
theorem order_blog_categories_stale_set_noop (dbCats : List BlogCategory)
    (submitted : List Nat) (hne : submitted ≠ [])
    (hset : submitted.toFinset
      ≠ (((sortByOrderIndex dbCats).map (fun c => c.id)).dedup).toFinset) :
    order_blog_categories dbCats submitted
      = ⟨dbCats, none, .ok (sortByOrderIndex dbCats)⟩ := by
  rw [order_blog_categories]
  rw [if_neg (by simpa [List.length_eq_zero] using hne)]
  simp only
  rw [if_pos hset]

/-! ## C6: no duplicate `order_index` at either phase boundary -/

/-- C6. On the mutating path, the state flushed after phase 1 gives the
N records the pairwise-distinct indexes −1 … −N — all negative, hence
disjoint from every positive index — and the committed final state gives
them the pairwise-distinct indexes 1 … N. -/
theorem order_blog_categories_two_phase_distinct (dbCats : List BlogCategory)
    (submitted : List Nat)
    (hid : (dbCats.map (fun c => c.id)).Nodup)
    (hperm : submitted.Perm (dbCats.map (fun c => c.id)))
    (hne : submitted ≠ (sortByOrderIndex dbCats).map (fun c => c.id)) :
    ∃ S1, (order_blog_categories dbCats submitted).flushed = some S1 ∧
      (S1.map (fun c => c.order_index)).Perm
        ((List.range submitted.length).map (fun (k : Nat) => -1 + (-1) * (k : Int))) ∧
      (S1.map (fun c => c.order_index)).Nodup ∧
      (∀ c ∈ S1, c.order_index < 0) ∧
      ((order_blog_categories dbCats submitted).dbAfter.map
          (fun c => c.order_index)).Perm
        ((List.range submitted.length).map (fun (k : Nat) => 1 + 1 * (k : Int))) ∧
      ((order_blog_categories dbCats submitted).dbAfter.map
          (fun c => c.order_index)).Nodup := by
  have hnd : submitted.Nodup := hperm.nodup_iff.mpr hid
  have hlen : ¬ submitted.length = 0 := by
    intro h0
    have : submitted = [] := List.length_eq_zero.mp h0
    subst this
    have : dbCats.map (fun c => c.id) = [] := (List.Perm.nil_eq hperm).symm
    have hsort : (sortByOrderIndex dbCats).map (fun c => c.id) = [] := by
      have : dbCats = [] := List.map_eq_nil.mp this
      subst this
      rfl
    rw [hsort] at hne
    exact hne rfl
  have hsortperm : (sortByOrderIndex dbCats).Perm dbCats :=
    List.perm_insertionSort catLE dbCats
  have hsortid : ((sortByOrderIndex dbCats).map (fun c => c.id)).Perm
      (dbCats.map (fun c => c.id)) := hsortperm.map _
  have hsortnodup : ((sortByOrderIndex dbCats).map (fun c => c.id)).Nodup :=
    hsortid.nodup_iff.mpr hid
  have hdedup : ((sortByOrderIndex dbCats).map (fun c => c.id)).dedup
      = (sortByOrderIndex dbCats).map (fun c => c.id) :=
    List.dedup_eq_self.mpr hsortnodup
  have hset : submitted.toFinset
      = (((sortByOrderIndex dbCats).map (fun c => c.id)).dedup).toFinset := by
    rw [hdedup]
    exact List.toFinset_eq_of_perm _ _ (hperm.trans hsortid.symm)
  have hmain := order_blog_categories_main_eq dbCats submitted hlen hset
    (by rw [hdedup]; exact hne)
  -- the index multisets of the two phases
  have hmapperm : ∀ (start step : Int),
      ((dbCats.map (fun c =>
          { c with order_index := start + step * (submitted.indexOf c.id : Int) })).map
        (fun c => c.order_index)).Perm
        ((List.range submitted.length).map (fun (k : Nat) => start + step * (k : Int))) := by
    intro start step
    rw [List.map_map]
    have hcomp : ((fun c => c.order_index) ∘ (fun c =>
        { c with order_index := start + step * (submitted.indexOf c.id : Int) }))
        = (fun (c : BlogCategory) => start + step * (submitted.indexOf c.id : Int)) := by
      funext c
      rfl
    rw [hcomp]
    have hsplit : (fun (c : BlogCategory) =>
        start + step * (submitted.indexOf c.id : Int))
        = (fun x => start + step * (submitted.indexOf x : Int)) ∘ (fun c => c.id) := by
      funext c
      rfl
    rw [hsplit, ← List.map_map]
    have hp1 : ((dbCats.map (fun c => c.id)).map
        (fun x => start + step * (submitted.indexOf x : Int))).Perm
        (submitted.map (fun x => start + step * (submitted.indexOf x : Int))) :=
      (hperm.map _).symm
    refine hp1.trans ?_
    have hfin : submitted.map (fun x => start + step * (submitted.indexOf x : Int))
        = (submitted.map (fun x => submitted.indexOf x)).map
            (fun (k : Nat) => start + step * (k : Int)) := by
      rw [List.map_map]
      rfl
    rw [hfin, map_indexOf_eq_range submitted hnd]
  refine ⟨phaseAssign dbCats submitted (-1) (-1), by rw [hmain], ?_, ?_, ?_, ?_, ?_⟩
  · rw [reorder_s1_eq dbCats submitted hid hperm]
    exact hmapperm (-1) (-1)
  · rw [reorder_s1_eq dbCats submitted hid hperm]
    refine ((hmapperm (-1) (-1)).nodup_iff).mpr ?_
    refine List.Nodup.map ?_ (List.nodup_range _)
    intro a b hab
    simp only at hab
    omega
  · intro c hc
    rw [reorder_s1_eq dbCats submitted hid hperm] at hc
    obtain ⟨orig, _, hmap⟩ := List.mem_map.mp hc
    rw [← hmap]
    have : (0 : Int) ≤ (submitted.indexOf orig.id : Int) := Int.natCast_nonneg _
    simp only
    omega
  · rw [hmain]
    simp only
    rw [reorder_s2_eq dbCats submitted hid hperm]
    exact hmapperm 1 1
  · rw [hmain]
    simp only
    rw [reorder_s2_eq dbCats submitted hid hperm]
    refine ((hmapperm 1 1).nodup_iff).mpr ?_
    refine List.Nodup.map ?_ (List.nodup_range _)
    intro a b hab
    simp only at hab
    omega

/-! ## C4: a valid reorder is applied positionally -/

/-- C4. For a non-empty submission that is a permutation of the current
ids and differs from the current order, the commit gives the record
submitted at (0-based) position `i` the order index `i + 1`, and the
response is the reloaded record set in exactly the submitted order with
indexes `1, 2, …, N`. -/
theorem order_blog_categories_applies_submitted_order
    (dbCats : List BlogCategory) (submitted : List Nat)
    (hid : (dbCats.map (fun c => c.id)).Nodup)
    (hperm : submitted.Perm (dbCats.map (fun c => c.id)))
    (hne : submitted ≠ (sortByOrderIndex dbCats).map (fun c => c.id)) :
    ∃ L, (order_blog_categories dbCats submitted).response = .ok L ∧
      L.map (fun c => c.id) = submitted ∧
      (∀ i (h : i < L.length), (L.get ⟨i, h⟩).order_index = (i : Int) + 1) ∧
      (order_blog_categories dbCats submitted).dbAfter.Perm L ∧
      (∀ c ∈ (order_blog_categories dbCats submitted).dbAfter,
        c.order_index = (submitted.indexOf c.id : Int) + 1) := by
  have hnd : submitted.Nodup := hperm.nodup_iff.mpr hid
  have hlen : ¬ submitted.length = 0 := by
    intro h0
    have h0' : submitted = [] := List.length_eq_zero.mp h0
    subst h0'
    have hmapnil : dbCats.map (fun c => c.id) = [] := (List.Perm.nil_eq hperm).symm
    have hcats : dbCats = [] := List.map_eq_nil.mp hmapnil
    subst hcats
    exact hne rfl
  have hsortperm : (sortByOrderIndex dbCats).Perm dbCats :=
    List.perm_insertionSort catLE dbCats
  have hsortid : ((sortByOrderIndex dbCats).map (fun c => c.id)).Perm
      (dbCats.map (fun c => c.id)) := hsortperm.map _
  have hsortnodup : ((sortByOrderIndex dbCats).map (fun c => c.id)).Nodup :=
    hsortid.nodup_iff.mpr hid
  have hdedup : ((sortByOrderIndex dbCats).map (fun c => c.id)).dedup
      = (sortByOrderIndex dbCats).map (fun c => c.id) :=
    List.dedup_eq_self.mpr hsortnodup
  have hset : submitted.toFinset
      = (((sortByOrderIndex dbCats).map (fun c => c.id)).dedup).toFinset := by
    rw [hdedup]
    exact List.toFinset_eq_of_perm _ _ (hperm.trans hsortid.symm)
  have hmain := order_blog_categories_main_eq dbCats submitted hlen hset
    (by rw [hdedup]; exact hne)
  have hs2 := reorder_s2_eq dbCats submitted hid hperm
  set s2 := phaseAssign (phaseAssign dbCats submitted (-1) (-1)) submitted 1 1
    with hs2def
  set S := sortByOrderIndex s2 with hSdef
  have hS2perm : S.Perm s2 := List.perm_insertionSort catLE s2
  have hsorted : List.Sorted catLE S := List.sorted_insertionSort catLE s2
  -- the sorted index list is exactly [1, …, N]
  have hmapperm : ((s2.map (fun c => c.order_index))).Perm
      ((List.range submitted.length).map (fun (k : Nat) => 1 + 1 * (k : Int))) := by
    rw [hs2, List.map_map]
    have hcomp : ((fun c => c.order_index) ∘ (fun c =>
        { c with order_index := 1 + 1 * (submitted.indexOf c.id : Int) }))
        = ((fun (x : Nat) => 1 + 1 * (submitted.indexOf x : Int))
            ∘ (fun (c : BlogCategory) => c.id)) := by
      funext c
      rfl
    rw [hcomp, ← List.map_map]
    refine ((hperm.map _).symm).trans ?_
    have hfin : submitted.map (fun x => 1 + 1 * (submitted.indexOf x : Int))
        = (submitted.map (fun x => submitted.indexOf x)).map
            (fun (k : Nat) => 1 + 1 * (k : Int)) := by
      rw [List.map_map]
      rfl
    rw [hfin, map_indexOf_eq_range submitted hnd]
  have hmapS : ((S.map (fun c => c.order_index))).Perm
      ((List.range submitted.length).map (fun (k : Nat) => 1 + 1 * (k : Int))) :=
    (hS2perm.map _).trans hmapperm
  have hsortedS : List.Pairwise (fun a b : Int => a ≤ b)
      (S.map (fun c => c.order_index)) :=
    List.Pairwise.map _ (fun a b hab => hab) hsorted
  have hsortedT : List.Pairwise (fun a b : Int => a ≤ b)
      ((List.range submitted.length).map (fun (k : Nat) => 1 + 1 * (k : Int))) := by
    refine List.Pairwise.map _ ?_ (List.sorted_lt_range submitted.length)
    intro a b hab
    omega
  have heq : S.map (fun c => c.order_index)
      = (List.range submitted.length).map (fun (k : Nat) => 1 + 1 * (k : Int)) :=
    List.eq_of_perm_of_sorted hmapS hsortedS hsortedT
  have hlenS : S.length = submitted.length := by
    have := congrArg List.length heq
    simpa using this
  -- membership characterization of the rows of S
  have hchar : ∀ c ∈ S, c.order_index
      = 1 + 1 * (submitted.indexOf c.id : Int) ∧ c.id ∈ submitted := by
    intro c hc
    have hcs2 : c ∈ s2 := hS2perm.mem_iff.mp hc
    rw [hs2] at hcs2
    obtain ⟨orig, horig, hmap⟩ := List.mem_map.mp hcs2
    constructor
    · rw [← hmap]
    · have hcid : c.id = orig.id := by rw [← hmap]
      rw [hcid]
      exact hperm.mem_iff.mpr (List.mem_map_of_mem _ horig)
  -- positional index values
  have hgetoi : ∀ i (h : i < S.length),
      (S.get ⟨i, h⟩).order_index = (i : Int) + 1 := by
    intro i h
    have hi : i < submitted.length := hlenS ▸ h
    have h3 := List.getElem_of_eq heq (i := i) (by simpa using h)
    rw [List.getElem_map, List.getElem_map, List.getElem_range] at h3
    rw [List.get_eq_getElem]
    simp only [Fin.val_mk]
    omega
  refine ⟨S, ?_, ?_, hgetoi, ?_, ?_⟩
  · rw [hmain]
  · -- ids in submitted order
    apply List.ext_get
    · simpa using hlenS
    · intro i h1 h2
      have h1S : i < S.length := by simpa using h1
      set c := S.get ⟨i, h1S⟩ with hcdef
      have hcS : c ∈ S := List.get_mem S i h1S
      obtain ⟨hoi, hmem⟩ := hchar c hcS
      have hoi2 : c.order_index = (i : Int) + 1 := hgetoi i h1S
      have hidx : (submitted.indexOf c.id : Int) = (i : Int) := by omega
      have hidxn : submitted.indexOf c.id = i := by exact_mod_cast hidx
      have hlt : submitted.indexOf c.id < submitted.length :=
        List.indexOf_lt_length.mpr hmem
      have hget : submitted.get ⟨submitted.indexOf c.id, hlt⟩ = c.id :=
        List.indexOf_get hlt
      have : submitted.get ⟨i, h2⟩ = c.id := by
        rw [← hget]
        congr 1
        exact (Fin.mk_eq_mk.mpr hidxn.symm)
      rw [List.get_map]
      rw [this]
  · rw [hmain]
    exact hS2perm.symm
  · intro c hc
    rw [hmain] at hc
    simp only at hc
    rw [hs2] at hc
    obtain ⟨orig, _, hmap⟩ := List.mem_map.mp hc
    rw [← hmap]
    simp only
    ring

/-! ## C10: no candidate URLs means no query and an empty result -/

/-- C10 counterexample. The inline-image regex extracts the URL
`http://[` from the Markdown `![x](http://[)`; splitting it inside
`is_hosted_url` (`utils/url.py` line 15) raises
`ValueError("Invalid IPv6 URL")` — the netloc `[` has an unmatched
bracket — so `detect_file_references` raises instead of returning the
empty set: an unmatched URL can make the operation fail. -/
theorem detect_file_references_raises_on_invalid_ipv6 :
    is_hosted_url "http" "localhost:5000" "http://["
      = .error .invalidIPv6Url ∧
    detect_file_references "http" "localhost:5000" "media"
        ([] : List File) ["http://["]
      = .error .invalidIPv6Url := by
  constructor
  · rfl
  · rfl

/-- A URL that `is_hosted_url` classifies (without raising) is also
split without raising: `urljoin` already validated its netloc. -/
theorem urlsplitPath_ok_of_hosted_ok (bscheme bnetloc url : String)
    (b : Bool) (h : is_hosted_url bscheme bnetloc url = .ok b) :
    urlsplitPath url = .ok (urlsplitPathD url) := by
  by_cases hu : url = ""
  · subst hu
    rfl
  · rw [is_hosted_url] at h
    cases hj : urljoinNetloc bscheme bnetloc url with
    | error e => rw [hj] at h; simp at h
    | ok n =>
      rw [urljoinNetloc, if_neg hu] at hj
      cases hn : urlsplitNetloc url with
      | error e => rw [hn] at hj; simp at hj
      | ok n? => simp [urlsplitPath, urlsplitPathD, hn]

/-- C10 amended. When every extracted URL is accepted by `urlsplit` and
none is both hosted by this server and of the
`/media/<collection>/<filename>` path shape — in particular for an empty
URL list or for URLs pointing at external hosts — the reference detector
returns the empty list and never queries the database. (A URL that
`urlsplit` rejects instead makes the whole operation raise `ValueError`,
as the counterexample shows.) -/
theorem detect_file_references_no_match_no_query
    (bscheme bnetloc mediaPfx : String) (db : List File) (urls : List String)
    (h : ∀ u ∈ urls,
      is_hosted_url bscheme bnetloc u = .ok false ∨
      (is_hosted_url bscheme bnetloc u = .ok true ∧
       matchHostedPath mediaPfx (urlsplitPathD u) = none)) :
    detect_file_references bscheme bnetloc mediaPfx db urls
      = .ok ([], false) := by
  have hcc : collectClauses bscheme bnetloc mediaPfx urls = .ok [] := by
    induction urls with
    | nil => rfl
    | cons u rest ih =>
      have hrest := ih (fun v hv => h v (List.mem_cons_of_mem u hv))
      rcases h u (List.mem_cons_self u rest) with hfalse | ⟨htrue, hnone⟩
      · rw [collectClauses, hfalse]
        exact hrest
      · have hpath := urlsplitPath_ok_of_hosted_ok bscheme bnetloc u true htrue
        simp only [collectClauses, htrue, hpath, hrest, hnone]
  rw [detect_file_references, hcc]
  rfl

/-! ## Concrete witnesses -/

/-- C1 witness: re-uploading bytes whose hash `"h"` is already stored
returns the stored row, `False`, and an unchanged state. -/
theorem store_file_dedup_fast_path_witness :
    store_file (fun _ => "h") (fun _ => "m") "u" false
        (⟨[⟨"x.png", "images", "", 3, "h"⟩], []⟩ : StoreState)
        (some "a.png") [1, 2, 3] "images"
      = (.ok ((⟨"x.png", "images", "", 3, "h"⟩ : File), false),
         (⟨[⟨"x.png", "images", "", 3, "h"⟩], []⟩ : StoreState)) :=
  (store_file_dedup_fast_path (fun _ => "h") (fun _ => "m") "u" false
    (⟨[⟨"x.png", "images", "", 3, "h"⟩], []⟩ : StoreState)
    "a.png" [1, 2, 3] "images").1
    (⟨"x.png", "images", "", 3, "h"⟩ : File) (by decide)

/-- C2 witness: a PNG upload for which magic would say `"image/png"` is
stored with mimetype `""`. -/
theorem store_file_mimetype_not_sniffed_witness :
    store_file (fun _ => "h") (fun _ => "image/png") "u" false
        (⟨[], []⟩ : StoreState) (some "a.png")
        [137, 80, 78, 71, 13, 10, 26, 10] "images"
      = (.ok ((⟨"a.png", "images", "", 8, "h"⟩ : File), true),
         (⟨[⟨"a.png", "images", "", 8, "h"⟩],
           [("images/a.png", [137, 80, 78, 71, 13, 10, 26, 10])]⟩ : StoreState)) ∧
    (⟨"a.png", "images", "", 8, "h"⟩ : File).mimetype = "" :=
  ⟨by decide,
   store_file_mimetype_not_sniffed (fun _ => "h") (fun _ => "image/png") "u"
     false (⟨[], []⟩ : StoreState) "a.png"
     [137, 80, 78, 71, 13, 10, 26, 10] "images"
     (⟨"a.png", "images", "", 8, "h"⟩ : File)
     (⟨[⟨"a.png", "images", "", 8, "h"⟩],
       [("images/a.png", [137, 80, 78, 71, 13, 10, 26, 10])]⟩ : StoreState)
     (by decide)⟩

/-- C3 witness (amended claim): storing new content into a table whose
hashes are distinct keeps them distinct. -/
theorem store_file_preserves_hash_uniqueness_witness :
    ((([⟨"x.png", "images", "", 3, "h"⟩] : List File)).map
      (fun r => r.content_hash)).Nodup ∧
    ((((store_file (fun _ => "h2") (fun _ => "m") "u" false
        (⟨[⟨"x.png", "images", "", 3, "h"⟩], []⟩ : StoreState)
        (some "b.png") [1] "images").2).db.map
      (fun r => r.content_hash)).Nodup) :=
  ⟨by decide,
   store_file_preserves_hash_uniqueness (fun _ => "h2") (fun _ => "m") "u"
     false (⟨[⟨"x.png", "images", "", 3, "h"⟩], []⟩ : StoreState)
     (some "b.png") [1] "images" (by decide)⟩

/-- C4 witness: submitting `[2, 1]` over records ordered `[1, 2]`. -/
theorem order_blog_categories_applies_submitted_order_witness :
    ∃ L, (order_blog_categories [⟨1, "a", 1⟩, ⟨2, "b", 2⟩] [2, 1]).response
        = .ok L ∧
      L.map (fun c => c.id) = [2, 1] ∧
      (∀ i (h : i < L.length), (L.get ⟨i, h⟩).order_index = (i : Int) + 1) ∧
      (order_blog_categories [⟨1, "a", 1⟩, ⟨2, "b", 2⟩] [2, 1]).dbAfter.Perm L ∧
      (∀ c ∈ (order_blog_categories [⟨1, "a", 1⟩, ⟨2, "b", 2⟩] [2, 1]).dbAfter,
        c.order_index = (([2, 1] : List Nat).indexOf c.id : Int) + 1) :=
  order_blog_categories_applies_submitted_order
    [⟨1, "a", 1⟩, ⟨2, "b", 2⟩] [2, 1] (by decide) (by decide) (by decide)

/-- C5 witness (amended claim): a non-empty stale submission (unknown
id) is a silent no-op. -/
theorem order_blog_categories_stale_set_noop_witness :
    order_blog_categories [⟨1, "a", 1⟩] [2]
      = ⟨[⟨1, "a", 1⟩], none, .ok (sortByOrderIndex [⟨1, "a", 1⟩])⟩ :=
  order_blog_categories_stale_set_noop [⟨1, "a", 1⟩] [2] (by decide) (by decide)

/-- C6 witness: the two-phase invariants for the reorder `[2, 1]`. -/
theorem order_blog_categories_two_phase_distinct_witness :
    ∃ S1, (order_blog_categories [⟨1, "a", 1⟩, ⟨2, "b", 2⟩] [2, 1]).flushed
        = some S1 ∧
      (S1.map (fun c => c.order_index)).Perm
        ((List.range ([2, 1] : List Nat).length).map
          (fun (k : Nat) => -1 + (-1) * (k : Int))) ∧
      (S1.map (fun c => c.order_index)).Nodup ∧
      (∀ c ∈ S1, c.order_index < 0) ∧
      ((order_blog_categories [⟨1, "a", 1⟩, ⟨2, "b", 2⟩] [2, 1]).dbAfter.map
          (fun c => c.order_index)).Perm
        ((List.range ([2, 1] : List Nat).length).map
          (fun (k : Nat) => 1 + 1 * (k : Int))) ∧
      ((order_blog_categories [⟨1, "a", 1⟩, ⟨2, "b", 2⟩] [2, 1]).dbAfter.map
          (fun c => c.order_index)).Nodup :=
  order_blog_categories_two_phase_distinct
    [⟨1, "a", 1⟩, ⟨2, "b", 2⟩] [2, 1] (by decide) (by decide) (by decide)

/-- C7 witness (amended claim): a short extension keeps the result
within the bound. -/
theorem normalize_filename_length_bounded_witness :
    (normalize_filename (fun _ => false) "u" "a.txt").1 = .ok "a.txt" ∧
    ("a.txt" : String).length ≤ File.MAX_FILENAME_LENGTH :=
  ⟨by decide,
   normalize_filename_length_bounded (fun _ => false) "u" "a.txt" "a.txt"
     (by decide) (by decide)⟩

/-- C8 witness: an oracle reporting every name taken exhausts all 100
candidates and raises. -/
theorem normalize_filename_probe_bound_witness :
    (normalize_filename (fun _ => true) "u" "a.txt").2 ≤ 100 ∧
    (nfCandidatesOf "u" "a.txt").length = 100 ∧
    (normalize_filename (fun _ => true) "u" "a.txt").1 =
      firstFreeResult (fun _ => true) (nfCandidatesOf "u" "a.txt") :=
  normalize_filename_probe_bound (fun _ => true) "u" "a.txt" (by decide)

/-- C9 witness: a failing insert deletes the fresh file, keeps the rest
of the disk, and re-raises. -/
theorem store_file_cleanup_on_insert_failure_witness :
    store_file (fun _ => "h") (fun _ => "m") "u" true
        (⟨[], [("keep", [9])]⟩ : StoreState) (some "a.png") [1, 2] "images"
      = (.error .dbError,
         ⟨[], diskUnlink (diskWrite [("keep", [9])] ("images" ++ "/" ++ "a.png") [1, 2])
            ("images" ++ "/" ++ "a.png")⟩) ∧
    diskRead? (store_file (fun _ => "h") (fun _ => "m") "u" true
        (⟨[], [("keep", [9])]⟩ : StoreState) (some "a.png") [1, 2] "images").2.disk
      ("images" ++ "/" ++ "a.png") = none ∧
    (∀ p, p ≠ "images" ++ "/" ++ "a.png" →
      diskRead? (store_file (fun _ => "h") (fun _ => "m") "u" true
          (⟨[], [("keep", [9])]⟩ : StoreState) (some "a.png") [1, 2] "images").2.disk p
        = diskRead? [("keep", [9])] p) :=
  store_file_cleanup_on_insert_failure (fun _ => "h") (fun _ => "m") "u"
    (⟨[], [("keep", [9])]⟩ : StoreState) "a.png" [1, 2] "images" "a.png"
    (by decide) (by decide)

/-- C10 witness (amended claim): external-host, non-http-scheme, and
non-media-path URLs — all accepted by `urlsplit` — produce no clauses,
no query, and an empty result. -/
theorem detect_file_references_no_match_no_query_witness :
    detect_file_references "http" "localhost:5000" "media"
        [⟨"a.png", "images", "", 1, "h"⟩]
        ["https://www.example.com/image.jpg", "mailto:user@example.com",
         "/other/path.png", "/media/other/x.png"]
      = .ok ([], false) :=
  detect_file_references_no_match_no_query "http" "localhost:5000" "media"
    [⟨"a.png", "images", "", 1, "h"⟩]
    ["https://www.example.com/image.jpg", "mailto:user@example.com",
     "/other/path.png", "/media/other/x.png"] (by decide)

end FlaskBlog
